import Mathlib

/-!
Shallow embedding of `src/multielo/player_tracker.py` (classes `Player` and
`Tracker`) and verification of the specification claims about it.

Modelling conventions, chosen to match the Python source:

* Dates are strings in the source, compared lexicographically (ISO dates, so
  lexicographic = chronological); present dates are modelled by `Nat` with its
  linear order.  A date can be missing in two distinct ways that the source
  treats differently: the Python `None` sentinel (the default `date` argument,
  tested with `is None` on line 216) and a pandas missing value (`NaN`, the
  content of an empty date cell, caught by `isna` on line 220 but not by
  `is None`).  The entry date type `DateVal` keeps both (`pyNone` / `nan`).
  A matchup row's date cell is `Option Date`: a missing cell is `NaN`.
* Player identities are opaque keys compared for equality and (in
  `_validate_player_df`) sorted by a linear order; they are modelled by `Nat`.
* Ratings are floats in the source; the claims under study do not depend on
  rounding, so they are modelled by `ℚ`.
* The Elo update `self.elo.get_new_ratings` lives in `multielo.py`, which is an
  external collaborator here (the `Tracker` constructor takes `elo_rater` as a
  parameter); it is modelled as a function parameter `elo : List ℚ → List ℚ`.
* `pandas.sort_values` is used with its default `kind="quicksort"`, which
  orders rows by the key column but leaves the relative order of rows with
  equal keys unspecified.  The embedding needs an executable sort and uses
  `List.insertionSort` (stable) as a deterministic stand-in.  No theorem below
  depends on the stand-in's tie order: the processing invariants are invariant
  under the processing order of the rows, and the order-invariance theorem for
  `process_data` is restricted to tables with pairwise-distinct dates, where
  every by-date sort agrees.
* Python exceptions (`ValueError`) become `Except TrackerError`.
* Python mutates shared `Player` objects in place; the embedding threads the
  registry state explicitly, so a mutation of the player stored under an id is
  an update of the `player_df` entry with that id.
-/

abbrev Date := Nat
abbrev PlayerId := Nat

/-- The date slot of a rating-history entry.  The source stores either a date
string, the Python `None` sentinel, or a pandas missing value (`NaN`): line
216 distinguishes `None` (`x[0] is None`) from `NaN`, while line 220's `isna`
treats both as missing, so the embedding keeps them apart. -/
inductive DateVal where
  | pyNone
  | nan
  | val (d : Date)
  deriving DecidableEq

/-- `pandas.isna` on an entry date: false exactly for a present date. -/
def DateVal.isPresent : DateVal → Bool
  | DateVal.val _ => true
  | _ => false

/-- The date a matchup row's date cell contributes to a history entry: a
missing cell is a pandas missing value (`NaN`), not the Python `None`. -/
def cellDate : Option Date → DateVal
  | some d => DateVal.val d
  | none => DateVal.nan

deriving instance DecidableEq for Except

/-! ### Player (player_tracker.py lines 9-119) -/

/-- One row of `Tracker.player_df`: the `player_id` column and the `player`
column (a `Player` object). -/
structure Player where
  id : PlayerId
  rating : ℚ
  rating_history : List (DateVal × ℚ)
  deriving DecidableEq

/-- `Player.__init__` (lines 15-41): if no `rating_history` is supplied, seed
the history with the single entry `(date, rating)` (via
`_update_rating_history`); otherwise store the supplied history as is. -/
def Player.init (player_id : PlayerId) (rating : ℚ)
    (rating_history : Option (List (DateVal × ℚ))) (date : DateVal) : Player :=
  match rating_history with
  | none => { id := player_id, rating := rating, rating_history := [(date, rating)] }
  | some h => { id := player_id, rating := rating, rating_history := h }

/-- `Player.update_rating` (lines 43-53): set the current rating and append
`(date, new_rating)` to the history (`_update_rating_history`, lines 89-98). -/
def Player.update_rating (p : Player) (new_rating : ℚ) (date : DateVal) : Player :=
  { p with rating := new_rating,
           rating_history := p.rating_history ++ [(date, new_rating)] }

/-- `Player.count_games` (lines 83-87): `len(self.rating_history) - 1`. -/
def Player.count_games (p : Player) : Nat :=
  p.rating_history.length - 1

/-- The `groupby(["date"]).rank(method="first", ascending=False)` step of
`get_rating_as_of_date` (line 73): an entry gets rank 1 within its date group
iff no entry with the same date has a strictly larger rating and no *earlier*
entry with the same date has an equal rating.  Entries whose date is missing
(`None` or `NaN`) belong to no group (`groupby` drops null keys) and get no
rank. -/
def rankOne (before : List (DateVal × ℚ)) (e : DateVal × ℚ)
    (after : List (DateVal × ℚ)) : Bool :=
  match e.1 with
  | DateVal.val d =>
    before.all (fun q => !(q.1 == DateVal.val d) || decide (q.2 < e.2)) &&
    after.all (fun q => !(q.1 == DateVal.val d) || decide (q.2 ≤ e.2))
  | _ => false

/-- Walk the history keeping exactly the rank-1 entry of each date group
(line 74, `history_df[history_df["r"] == 1]`), preserving order. -/
def dedupAux (before : List (DateVal × ℚ)) :
    List (DateVal × ℚ) → List (DateVal × ℚ)
  | [] => []
  | e :: rest =>
    if rankOne before e rest then e :: dedupAux (before ++ [e]) rest
    else dedupAux (before ++ [e]) rest

/-- Lines 70-74 of `get_rating_as_of_date`: one entry per distinct date. -/
def dedupedHistory (h : List (DateVal × ℚ)) : List (DateVal × ℚ) :=
  dedupAux [] h

/-- Descending-date order used by `sort_values("date", ascending=False)` on
the deduplicated (all dates present) rows. -/
def dateDesc (a b : Date × ℚ) : Prop := b.1 ≤ a.1

instance : DecidableRel dateDesc := fun a b => inferInstanceAs (Decidable (b.1 ≤ a.1))

instance : IsTotal (Date × ℚ) dateDesc := ⟨fun a b => Nat.le_total b.1 a.1⟩

instance : IsTrans (Date × ℚ) dateDesc :=
  ⟨fun _ _ _ h h' => Nat.le_trans h' h⟩

/-- `Player.get_rating_as_of_date` (lines 55-81): keep one entry per distinct
date (the rank-1 one), restrict to dates `≤ date`, sort by date descending and
return the first rating, or `default_rating` when nothing qualifies. -/
def Player.get_rating_as_of_date (p : Player) (date : Date) (default_rating : ℚ) : ℚ :=
  let eligible := (dedupedHistory p.rating_history).filterMap
    (fun e => match e.1 with
      | DateVal.val d => if d ≤ date then some (d, e.2) else none
      | _ => none)
  match (List.insertionSort dateDesc eligible).head? with
  | none => default_rating
  | some e => e.2

/-! `Player.__eq__` / `__lt__` / `__le__` / `__gt__` / `__ge__`
(lines 106-119): each compares `self.rating` against the other operand. -/

/-- `Player.__eq__` (lines 106-107): `self.rating == other`. -/
def Player.eqNum (p : Player) (other : ℚ) : Bool := p.rating == other

/-- `Player.__lt__` (lines 109-110): `self.rating < other`. -/
def Player.ltNum (p : Player) (other : ℚ) : Bool := decide (p.rating < other)

/-- `Player.__le__` (lines 112-113): `self.rating <= other`. -/
def Player.leNum (p : Player) (other : ℚ) : Bool := decide (p.rating ≤ other)

/-- `Player.__gt__` (lines 115-116): `self.rating > other`. -/
def Player.gtNum (p : Player) (other : ℚ) : Bool := decide (other < p.rating)

/-- `Player.__ge__` (lines 118-119): `self.rating >= other`. -/
def Player.geNum (p : Player) (other : ℚ) : Bool := decide (other ≤ p.rating)

/-- Comparison of two `Player` objects, as evaluated by Python when pandas
sorts the `player` column: `p < q` runs `Player.__lt__(p, q)`, i.e.
`p.rating < q`, and the reflected comparison on the `Player` operand reduces
it to `p.rating < q.rating`. -/
def Player.ltPlayer (p q : Player) : Bool := decide (p.rating < q.rating)

/-! ### Tracker (player_tracker.py lines 122-271) -/

inductive TrackerError where
  | notFound (player_id : PlayerId)
  | alreadyExists (player_id : PlayerId)
  | duplicateIds
  deriving DecidableEq

/-- The `Tracker` state: the default initial rating for new players and the
`player_df` dataframe (columns `player_id`, `player`).  The `elo_rater`
collaborator is passed to `process_data` as a parameter instead of being
stored, since it is never mutated. -/
structure Tracker where
  initial_player_rating : ℚ
  player_df : List (PlayerId × Player)
  deriving DecidableEq

/-- `self.player_df["player_id"].tolist()`. -/
def Tracker.playerIds (t : Tracker) : List PlayerId :=
  t.player_df.map (fun r => r.1)

/-- Ascending order on the `player_id` column, used by
`_validate_player_df`'s `sort_values("player_id")`. -/
def idAsc (a b : PlayerId × Player) : Prop := a.1 ≤ b.1

instance : DecidableRel idAsc := fun a b => inferInstanceAs (Decidable (a.1 ≤ b.1))

instance : IsTotal (PlayerId × Player) idAsc := ⟨fun a b => Nat.le_total a.1 b.1⟩

instance : IsTrans (PlayerId × Player) idAsc :=
  ⟨fun _ _ _ h h' => Nat.le_trans h h'⟩

/-- `Tracker._validate_player_df` (lines 261-268): require unique player ids
(the `isinstance` check is enforced by typing here) and re-sort the dataframe
by `player_id`. -/
def validate_player_df (df : List (PlayerId × Player)) :
    Except TrackerError (List (PlayerId × Player)) :=
  if (df.map (fun r => r.1)).Nodup then .ok (List.insertionSort idAsc df)
  else .error .duplicateIds

/-- `Tracker.retrieve_existing_player` (lines 226-240): if the id is in the
`player_id` column, return the first `player` entry with that id, else raise. -/
def Tracker.retrieve_existing_player (t : Tracker) (player_id : PlayerId) :
    Except TrackerError Player :=
  if player_id ∈ t.playerIds then
    match ((t.player_df.filter (fun r => r.1 == player_id)).map (fun r => r.2)).head? with
    | some p => .ok p
    | none => .error (.notFound player_id)
  else .error (.notFound player_id)

/-- `Tracker._create_new_player` (lines 248-259): raise if the id already
exists, otherwise create `Player(player_id, rating=self.initial_player_rating)`
(creation date the Python `None`), append it to `player_df` and re-validate. -/
def Tracker.create_new_player (t : Tracker) (player_id : PlayerId) :
    Except TrackerError (Player × Tracker) :=
  if player_id ∈ t.playerIds then
    .error (.alreadyExists player_id)
  else
    let player := Player.init player_id t.initial_player_rating none DateVal.pyNone
    match validate_player_df (t.player_df ++ [(player_id, player)]) with
    | .ok df => .ok (player, { t with player_df := df })
    | .error e => .error e

/-- `Tracker._get_or_create_player` (lines 242-246). -/
def Tracker.get_or_create_player (t : Tracker) (player_id : PlayerId) :
    Except TrackerError (Player × Tracker) :=
  if player_id ∈ t.playerIds then
    match t.retrieve_existing_player player_id with
    | .ok p => .ok (p, t)
    | .error e => .error e
  else t.create_new_player player_id

/-- One row of the matchup-history dataframe passed to `process_data`: the
date cell and the placement cells in finishing order (a missing cell is
`none`). -/
structure MatchupRow where
  date : Option Date
  places : List (Option PlayerId)
  deriving DecidableEq

/-- The non-null placement values of a row in finishing order
(`row[x] for x in place_cols if not pd.isna(row[x])`). -/
def rowIds (r : MatchupRow) : List PlayerId :=
  r.places.filterMap (fun o => o)

/-- Ascending order by the date column, used by
`sort_values(date_col)` in `process_data` (line 171); a null date sorts last
(`na_position="last"`). -/
def rowLe (a b : MatchupRow) : Prop :=
  match a.date, b.date with
  | some x, some y => x ≤ y
  | some _, none => True
  | none, some _ => False
  | none, none => True

instance : DecidableRel rowLe := fun a b =>
  match a, b with
  | ⟨some x, _⟩, ⟨some y, _⟩ => inferInstanceAs (Decidable (x ≤ y))
  | ⟨some _, _⟩, ⟨none, _⟩ => inferInstanceAs (Decidable True)
  | ⟨none, _⟩, ⟨some _, _⟩ => inferInstanceAs (Decidable False)
  | ⟨none, _⟩, ⟨none, _⟩ => inferInstanceAs (Decidable True)

instance : IsTotal MatchupRow rowLe :=
  ⟨fun a b => by
    cases a with
    | mk da pa =>
      cases b with
      | mk db pb =>
        cases da <;> cases db <;> simp [rowLe] <;> exact Nat.le_total _ _⟩

instance : IsTrans MatchupRow rowLe :=
  ⟨fun a b c hab hbc => by
    cases a with
    | mk da pa =>
      cases b with
      | mk db pb =>
        cases c with
        | mk dc pc =>
          cases da <;> cases db <;> cases dc <;>
            simp_all [rowLe] <;> exact Nat.le_trans hab hbc⟩

/-- `dropna(how="all", subset=place_cols)` keeps a row iff some placement cell
is non-null (line 173). -/
def hasNonEmptyPlace (r : MatchupRow) : Bool :=
  r.places.any (fun o => o.isSome)

/-- In-place mutation of the `Player` object stored under `player_id`:
`player.update_rating(new_rating, date=date)` seen through `player_df`. -/
def Tracker.updatePlayer (t : Tracker) (player_id : PlayerId) (new_rating : ℚ)
    (date : DateVal) : Tracker :=
  { t with
    player_df := t.player_df.map
      (fun r => if r.1 == player_id then (r.1, r.2.update_rating new_rating date) else r) }

/-- The list comprehension
`players = [self._get_or_create_player(row[x]) for x in place_cols if not pd.isna(row[x])]`
(line 176): resolve the ids left to right, creating missing players as the
comprehension runs, and collect the resolved `Player`s.  (A player created or
fetched earlier is never modified by a later `_get_or_create_player` call, so
collecting the value at resolution time agrees with the Python object
references.) -/
def Tracker.getOrCreateAll (t : Tracker) :
    List PlayerId → Except TrackerError (List Player × Tracker)
  | [] => .ok ([], t)
  | pid :: rest =>
    match t.get_or_create_player pid with
    | .error e => .error e
    | .ok (p, t') =>
      match t'.getOrCreateAll rest with
      | .error e => .error e
      | .ok (ps, t'') => .ok (p :: ps, t'')

/-- The body of the `for _, row in matchup_history_df.iterrows()` loop
(lines 174-186): resolve the participants, read their current ratings, call
the rating algorithm, and record each participant's new rating with the row's
date.  (The INFO log of before/after ratings is observability and is not
modelled.) -/
def Tracker.processRow (elo : List ℚ → List ℚ) (t : Tracker) (row : MatchupRow) :
    Except TrackerError Tracker :=
  match t.getOrCreateAll (rowIds row) with
  | .error e => .error e
  | .ok (players, t1) =>
    let initial_ratings := players.map (fun p => p.rating)
    let new_ratings := elo initial_ratings
    .ok (((rowIds row).zip new_ratings).foldl
      (fun acc pr => acc.updatePlayer pr.1 pr.2 (cellDate row.date)) t1)

/-- The row loop, with exceptions propagating. -/
def Tracker.processRows (elo : List ℚ → List ℚ) :
    Tracker → List MatchupRow → Except TrackerError Tracker
  | t, [] => .ok t
  | t, row :: rest =>
    match t.processRow elo row with
    | .error e => .error e
    | .ok t' => t'.processRows elo rest

/-- `Tracker.process_data` (lines 159-186): sort the matchup history by the
date column, drop rows whose placement cells are all null, then process the
rows in order.  The source's `sort_values(date_col)` (line 171) uses pandas'
default quicksort, which leaves the relative order of same-date rows
unspecified; the executable stand-in `List.insertionSort` fixes one such
order, and no theorem below relies on which order it fixes (the
order-invariance theorem is restricted to pairwise-distinct dates, where
every by-date sort agrees). -/
def Tracker.process_data (t : Tracker) (elo : List ℚ → List ℚ)
    (rows : List MatchupRow) : Except TrackerError Tracker :=
  Tracker.processRows elo t ((List.insertionSort rowLe rows).filter hasNonEmptyPlace)

/-- One row of the `get_current_ratings` output:
columns `rank`, `player_id`, `n_games`, `rating`. -/
structure StandingRow where
  rank : Nat
  player_id : PlayerId
  n_games : Nat
  rating : ℚ
  deriving DecidableEq

/-- Descending order on the `player` column used by
`sort_values("player", ascending=False)` (line 198): the rich comparisons of
`Player` (lines 106-119) order players by `rating`. -/
def playerDesc (a b : PlayerId × Player) : Prop := b.2.rating ≤ a.2.rating

instance : DecidableRel playerDesc := fun a b =>
  inferInstanceAs (Decidable (b.2.rating ≤ a.2.rating))

instance : IsTotal (PlayerId × Player) playerDesc := ⟨fun a b => le_total b.2.rating a.2.rating⟩

instance : IsTrans (PlayerId × Player) playerDesc :=
  ⟨fun _ _ _ h h' => le_trans h' h⟩

/-- `df["rank"] = range(1, df.shape[0] + 1)` (line 199): attach 1-based
positional ranks to the sorted rows, reading off `n_games` and `rating` from
the `Player` objects (lines 196-197). -/
def addRanks (n : Nat) : List (PlayerId × Player) → List StandingRow
  | [] => []
  | r :: rest => ⟨n, r.1, r.2.count_games, r.2.rating⟩ :: addRanks (n + 1) rest

/-- `Tracker.get_current_ratings` (lines 188-201).  The source's
`sort_values("player", ascending=False)` uses pandas' default quicksort,
which leaves the relative order of rating ties unspecified; the executable
stand-in `List.insertionSort` fixes one such order, and no theorem below
relies on which order it fixes. -/
def Tracker.get_current_ratings (t : Tracker) : List StandingRow :=
  addRanks 1 (List.insertionSort playerDesc t.player_df)

/-- One row of the `get_history_df` output: `player_id`, `date`, `rating`. -/
abbrev HistoryRow := PlayerId × DateVal × ℚ

/-- `Tracker.get_history_df` (lines 203-224): for each player, the history
entries whose date is present (`~player_history_df["date"].isna()`), tagged
with `player.id`, concatenated in dataframe order. -/
def Tracker.get_history_df (t : Tracker) : List HistoryRow :=
  t.player_df.flatMap (fun r =>
    (r.2.rating_history.filter (fun e => e.1.isPresent)).map (fun e => (r.2.id, e.1, e.2)))

/-- The warning emitted by `get_history_df` (lines 216-217): the ids of the
players for which some non-initial history entry's date *is the Python
`None`* — the check is `x[0] is None`, so a `NaN` missing date (an empty
dataframe cell) does not trigger it, although line 220's `isna` excludes such
entries from the export. -/
def Tracker.history_warnings (t : Tracker) : List PlayerId :=
  (t.player_df.filter
      (fun r => (r.2.rating_history.drop 1).any (fun e => e.1 == DateVal.pyNone))).map
    (fun r => r.2.id)

/-! ### Spec-side measures used to state the claims -/

/-- Number of non-empty placement slots holding `pid` across a list of rows. -/
def slotSum (pid : PlayerId) (rows : List MatchupRow) : Nat :=
  (rows.map (fun rw => (rowIds rw).count pid)).sum

/-- Number of rows in which `pid` appears in some placement slot. -/
def matchupCount (pid : PlayerId) (rows : List MatchupRow) : Nat :=
  rows.countP (fun rw => decide (pid ∈ rowIds rw))

/-- `Modelled from the spec:` the "last-appended-wins among same-date
entries" as-of-date lookup described in section 4.2 of the spec (the code's
own docstring agrees: "If there are multiple entries on that date, take the
one corresponding to a game result").  It scans the history in order and
keeps the rating of the last entry whose date is present and `≤ date`. -/
def ratingAsOfLastAppended (h : List (DateVal × ℚ)) (date : Date)
    (default_rating : ℚ) : ℚ :=
  let best := h.foldl (fun acc e =>
    match e.1 with
    | DateVal.val d =>
      if d ≤ date then
        match acc with
        | none => some (d, e.2)
        | some b => if b.1 ≤ d then some (d, e.2) else acc
      else acc
    | _ => acc) (none : Option (Date × ℚ))
  match best with
  | none => default_rating
  | some b => b.2

/-! ### Basic lemmas about the embedding -/

theorem mem_playerIds_iff {t : Tracker} {pid : PlayerId} :
    pid ∈ t.playerIds ↔ ∃ p, (pid, p) ∈ t.player_df := by
  simp only [Tracker.playerIds, List.mem_map]
  constructor
  · rintro ⟨r, hr, rfl⟩
    exact ⟨r.2, hr⟩
  · rintro ⟨p, hp⟩
    exact ⟨(pid, p), hp, rfl⟩

theorem retrieve_ok_of_mem {t : Tracker} {pid : PlayerId} (h : pid ∈ t.playerIds) :
    ∃ p, t.retrieve_existing_player pid = .ok p ∧ (pid, p) ∈ t.player_df := by
  obtain ⟨p0, hp0⟩ := mem_playerIds_iff.1 h
  have hne : t.player_df.filter (fun r => r.1 == pid) ≠ [] := by
    intro hnil
    have : (pid, p0) ∈ t.player_df.filter (fun r => r.1 == pid) :=
      List.mem_filter.2 ⟨hp0, by simp⟩
    rw [hnil] at this
    exact List.not_mem_nil _ this
  rcases hfl : t.player_df.filter (fun r => r.1 == pid) with _ | ⟨a, l⟩
  · exact absurd hfl hne
  · have ha : a ∈ t.player_df.filter (fun r => r.1 == pid) := by rw [hfl]; exact List.mem_cons_self _ _
    have hmem := List.mem_filter.1 ha
    have ha1 : a.1 = pid := by simpa using hmem.2
    refine ⟨a.2, ?_, ?_⟩
    · unfold Tracker.retrieve_existing_player
      rw [if_pos h, hfl]
      rfl
    · have : a = (pid, a.2) := by rw [← ha1]
      rw [← this]
      exact hmem.1

theorem retrieve_error_of_not_mem {t : Tracker} {pid : PlayerId} (h : pid ∉ t.playerIds) :
    t.retrieve_existing_player pid = .error (.notFound pid) := by
  unfold Tracker.retrieve_existing_player
  rw [if_neg h]

theorem retrieve_error_elim {t : Tracker} {pid : PlayerId} {e : TrackerError}
    (h : t.retrieve_existing_player pid = .error e) : e = .notFound pid := by
  unfold Tracker.retrieve_existing_player at h
  by_cases hm : pid ∈ t.playerIds
  · rw [if_pos hm] at h
    rcases hh : ((t.player_df.filter (fun r => r.1 == pid)).map (fun r => r.2)).head? with _ | p
    · rw [hh] at h
      cases h
      rfl
    · rw [hh] at h
      cases h
  · rw [if_neg hm] at h
    cases h
    rfl

theorem create_ok_of_not_mem {t : Tracker} {pid : PlayerId} (h : pid ∉ t.playerIds)
    (hn : t.playerIds.Nodup) :
    ∃ t', t.create_new_player pid =
        .ok (Player.init pid t.initial_player_rating none DateVal.pyNone, t') ∧
      t'.initial_player_rating = t.initial_player_rating ∧
      t'.player_df.Perm
        (t.player_df ++ [(pid, Player.init pid t.initial_player_rating none DateVal.pyNone)]) := by
  have hnodup : ((t.player_df ++ [(pid, Player.init pid t.initial_player_rating none DateVal.pyNone)]).map
      (fun r => r.1)).Nodup := by
    rw [List.map_append]
    refine List.nodup_append.2 ⟨hn, List.nodup_singleton _, ?_⟩
    intro q hq hq'
    simp only [List.map_cons, List.map_nil, List.mem_singleton] at hq'
    exact h (hq' ▸ hq)
  refine ⟨Tracker.mk t.initial_player_rating
      (List.insertionSort idAsc
        (t.player_df ++ [(pid, Player.init pid t.initial_player_rating none DateVal.pyNone)])),
    ?_, rfl, ?_⟩
  · have hnodup' : ((t.player_df.map (fun r => r.1)) ++ [pid]).Nodup := by
      simpa using hnodup
    simp [Tracker.create_new_player, validate_player_df, h, hnodup']
  · exact List.perm_insertionSort idAsc _

theorem create_error_of_mem {t : Tracker} {pid : PlayerId} (h : pid ∈ t.playerIds) :
    t.create_new_player pid = .error (.alreadyExists pid) := by
  unfold Tracker.create_new_player
  rw [if_pos h]

theorem gooc_ok_of_mem {t : Tracker} {pid : PlayerId} (h : pid ∈ t.playerIds) :
    ∃ p, t.get_or_create_player pid = .ok (p, t) ∧ (pid, p) ∈ t.player_df := by
  obtain ⟨p, hp, hmem⟩ := retrieve_ok_of_mem h
  refine ⟨p, ?_, hmem⟩
  unfold Tracker.get_or_create_player
  rw [if_pos h, hp]

theorem gooc_ok_of_not_mem {t : Tracker} {pid : PlayerId} (h : pid ∉ t.playerIds)
    (hn : t.playerIds.Nodup) :
    ∃ t', t.get_or_create_player pid =
        .ok (Player.init pid t.initial_player_rating none DateVal.pyNone, t') ∧
      t'.initial_player_rating = t.initial_player_rating ∧
      t'.player_df.Perm
        (t.player_df ++ [(pid, Player.init pid t.initial_player_rating none DateVal.pyNone)]) := by
  obtain ⟨t', h1, h2, h3⟩ := create_ok_of_not_mem h hn
  refine ⟨t', ?_, h2, h3⟩
  unfold Tracker.get_or_create_player
  rw [if_neg h]
  exact h1

theorem gooc_never_alreadyExists (t : Tracker) (pid : PlayerId) (x : PlayerId) :
    t.get_or_create_player pid ≠ .error (.alreadyExists x) := by
  unfold Tracker.get_or_create_player
  by_cases hm : pid ∈ t.playerIds
  · rw [if_pos hm]
    rcases hr : t.retrieve_existing_player pid with e | p
    · have he := retrieve_error_elim hr
      subst he
      simp
    · simp
  · rw [if_neg hm]
    by_cases hnd : ((t.player_df ++
        [(pid, Player.init pid t.initial_player_rating none DateVal.pyNone)]).map (fun r => r.1)).Nodup
    · have hnd' : ((t.player_df.map (fun r => r.1)) ++ [pid]).Nodup := by simpa using hnd
      simp [Tracker.create_new_player, validate_player_df, hm, hnd']
    · have hnd' : ¬((t.player_df.map (fun r => r.1)) ++ [pid]).Nodup := by simpa using hnd
      simp [Tracker.create_new_player, validate_player_df, hm, hnd']

/-! ### Lemmas about the as-of-date pipeline -/

theorem all_filter_isPresent (g : DateVal × ℚ → Bool)
    (hg : ∀ q : DateVal × ℚ, q.1.isPresent = false → g q = true) :
    ∀ L : List (DateVal × ℚ), (L.filter (fun q => q.1.isPresent)).all g = L.all g
  | [] => rfl
  | q :: L => by
    by_cases hq : q.1.isPresent = true
    · have hstep : (q :: L).filter (fun x => x.1.isPresent) =
          q :: L.filter (fun x => x.1.isPresent) := by
        simp [List.filter_cons, hq]
      rw [hstep, List.all_cons, List.all_cons, all_filter_isPresent g hg L]
    · have hq' : q.1.isPresent = false := by simpa using hq
      have hstep : (q :: L).filter (fun x => x.1.isPresent) =
          L.filter (fun x => x.1.isPresent) := by
        simp [List.filter_cons, hq']
      rw [hstep, List.all_cons, hg q hq', Bool.true_and, all_filter_isPresent g hg L]

theorem rankOne_false_of_not_present {before after : List (DateVal × ℚ)}
    {e : DateVal × ℚ} (h : e.1.isPresent = false) : rankOne before e after = false := by
  rcases he : e.1 with _ | _ | d
  · unfold rankOne
    rw [he]
  · unfold rankOne
    rw [he]
  · rw [he] at h
    simp [DateVal.isPresent] at h

theorem rankOne_filter (before after : List (DateVal × ℚ)) (e : DateVal × ℚ) :
    rankOne (before.filter (fun q => q.1.isPresent)) e (after.filter (fun q => q.1.isPresent)) =
      rankOne before e after := by
  rcases e with ⟨ed, er⟩
  rcases ed with _ | _ | d
  · rfl
  · rfl
  · unfold rankOne
    dsimp only
    rw [all_filter_isPresent _ (fun q hq => by
        rcases hq1 : q.1 with _ | _ | dd
        · simp [hq1]
        · simp [hq1]
        · rw [hq1] at hq
          simp [DateVal.isPresent] at hq) before,
      all_filter_isPresent _ (fun q hq => by
        rcases hq1 : q.1 with _ | _ | dd
        · simp [hq1]
        · simp [hq1]
        · rw [hq1] at hq
          simp [DateVal.isPresent] at hq) after]

theorem dedupAux_filter :
    ∀ (l before : List (DateVal × ℚ)),
      dedupAux (before.filter (fun q => q.1.isPresent)) (l.filter (fun q => q.1.isPresent)) =
        dedupAux before l
  | [], _ => by simp [dedupAux]
  | e :: rest, before => by
    have hrhs : dedupAux before (e :: rest) =
        if rankOne before e rest then e :: dedupAux (before ++ [e]) rest
        else dedupAux (before ++ [e]) rest := rfl
    by_cases hp : e.1.isPresent = true
    · have hkeep : (e :: rest).filter (fun q => q.1.isPresent) =
          e :: rest.filter (fun q => q.1.isPresent) := by
        simp [List.filter_cons, hp]
      have hbefore : (before ++ [e]).filter (fun q => q.1.isPresent) =
          before.filter (fun q => q.1.isPresent) ++ [e] := by
        simp [List.filter_append, List.filter_cons, hp]
      have hlhs : dedupAux (before.filter (fun q => q.1.isPresent))
            (e :: rest.filter (fun q => q.1.isPresent)) =
          if rankOne (before.filter (fun q => q.1.isPresent)) e
              (rest.filter (fun q => q.1.isPresent))
          then e :: dedupAux (before.filter (fun q => q.1.isPresent) ++ [e])
            (rest.filter (fun q => q.1.isPresent))
          else dedupAux (before.filter (fun q => q.1.isPresent) ++ [e])
            (rest.filter (fun q => q.1.isPresent)) := rfl
      rw [hkeep, hlhs, rankOne_filter before rest e, hrhs, ← hbefore]
      rcases hro : rankOne before e rest with _ | _
      · simp only [Bool.false_eq_true, if_false]
        exact dedupAux_filter rest (before ++ [e])
      · simp only [if_true]
        rw [dedupAux_filter rest (before ++ [e])]
    · have hp' : e.1.isPresent = false := by simpa using hp
      have hdrop : (e :: rest).filter (fun q => q.1.isPresent) =
          rest.filter (fun q => q.1.isPresent) := by
        simp [List.filter_cons, hp']
      have hbefore : (before ++ [e]).filter (fun q => q.1.isPresent) =
          before.filter (fun q => q.1.isPresent) := by
        simp [List.filter_append, List.filter_cons, hp']
      have hr1 : rankOne before e rest = false := rankOne_false_of_not_present hp'
      rw [hdrop, hrhs, hr1]
      simp only [Bool.false_eq_true, if_false]
      rw [← hbefore]
      exact dedupAux_filter rest (before ++ [e])

theorem dedupedHistory_filter (h : List (DateVal × ℚ)) :
    dedupedHistory (h.filter (fun q => q.1.isPresent)) = dedupedHistory h :=
  dedupAux_filter h []

theorem mem_dedupAux :
    ∀ {l before : List (DateVal × ℚ)} {e : DateVal × ℚ},
      e ∈ dedupAux before l → e ∈ l
  | [], _, _, hmem => by simp [dedupAux] at hmem
  | a :: rest, before, e, hmem => by
    unfold dedupAux at hmem
    rcases hro : rankOne before a rest with _ | _
    · rw [hro] at hmem
      simp only [Bool.false_eq_true, if_false] at hmem
      exact List.mem_cons_of_mem _ (mem_dedupAux hmem)
    · rw [hro] at hmem
      simp only [if_true] at hmem
      rcases List.mem_cons.1 hmem with h1 | h2
      · exact h1 ▸ List.mem_cons_self _ _
      · exact List.mem_cons_of_mem _ (mem_dedupAux h2)

theorem rating_as_of_default_of_all_late {p : Player} {d : Date} {q : ℚ}
    (h : ∀ e ∈ p.rating_history, ∀ dd, e.1 = DateVal.val dd → d < dd) :
    p.get_rating_as_of_date d q = q := by
  unfold Player.get_rating_as_of_date
  have helig : (dedupedHistory p.rating_history).filterMap
      (fun e => match e.1 with
        | DateVal.val dd => if dd ≤ d then some (dd, e.2) else none
        | _ => none) = [] := by
    rw [List.filterMap_eq_nil_iff]
    intro e he
    have hmem : e ∈ p.rating_history := mem_dedupAux he
    rcases hed : e.1 with _ | _ | dd
    · rfl
    · rfl
    · have hlt := h e hmem dd hed
      simp [Nat.not_le_of_lt hlt]
  rw [helig]
  rfl

/-! ### Concrete rating functions used in scenarios -/

/-- A deliberately order-sensitive (but deterministic and length-preserving)
two-player rating function, a legal `elo_rater` collaborator for scenarios:
the first-listed participant always ends at rating 1 and the second at 2. -/
def eloShift : List ℚ → List ℚ := fun l =>
  match l with
  | [_, _] => [1, 2]
  | l => l

/-- The identity rating function (length preserving), a legal `elo_rater`
collaborator for scenarios in which only the bookkeeping matters. -/
def eloIdentity : List ℚ → List ℚ := fun l => l

/-! ### Claim C1 -/

/-- C1 (code-bug evidence): for a player whose history holds the synthetic
creation entry `(date 1, 1000)` followed by the recorded result
`(date 1, 984)` on the same date, `get_rating_as_of_date` at date 1 returns
1000 — the `groupby(date).rank(method="first", ascending=False)`
deduplication keeps the highest-rated entry of the date group — whereas the
claim and the function's own docstring ("take the one corresponding to a game
result", i.e. last-appended-wins) require 984, as computed by the
spec-modelled `ratingAsOfLastAppended`. -/
theorem c1_same_date_lookup_returns_highest_rated_entry :
    Player.get_rating_as_of_date
      ⟨1, 984, [(DateVal.val 1, 1000), (DateVal.val 1, 984)]⟩ 1 900 = 1000 ∧
    ratingAsOfLastAppended [(DateVal.val 1, 1000), (DateVal.val 1, 984)] 1 900 = 984 ∧
    (1000 : ℚ) ≠ 984 := by
  refine ⟨by decide, by decide, by decide⟩

/-! ### Claim C4 -/

/-- C4: at creation (the history-seeding path used by the registry) the live
rating equals the single seeded history entry's rating, and `update_rating`
appends exactly one `(date, new_rating)` entry — keeping every prior entry,
in order, as a prefix — and re-establishes that the live rating equals the
rating of the most recently appended entry. -/
theorem c4_rating_matches_last_history_entry :
    (∀ (player_id : PlayerId) (rating : ℚ) (date : DateVal),
      (Player.init player_id rating none date).rating_history = [(date, rating)] ∧
      (Player.init player_id rating none date).rating = rating ∧
      (Player.init player_id rating none date).rating_history.getLast? =
        some (date, (Player.init player_id rating none date).rating)) ∧
    (∀ (p : Player) (new_rating : ℚ) (date : DateVal),
      (p.update_rating new_rating date).rating_history =
        p.rating_history ++ [(date, new_rating)] ∧
      (p.update_rating new_rating date).rating = new_rating ∧
      (p.update_rating new_rating date).rating_history.getLast? =
        some (date, (p.update_rating new_rating date).rating)) := by
  refine ⟨fun player_id rating date => ⟨rfl, rfl, rfl⟩, fun p nr date => ⟨rfl, rfl, ?_⟩⟩
  show (p.rating_history ++ [(date, nr)]).getLast? = some (date, nr)
  exact List.getLast?_concat _

/-! ### Claim C6 -/

/-- C6 (code-bug evidence): processing a matchup row whose date cell is
empty appends entries whose date is the pandas missing value; they still set
the live rating and they are excluded from the history export by line 220's
`isna`, yet `history_warnings` stays empty because line 216 tests
`x[0] is None` and a pandas missing value is not `None`.  By contrast a
non-initial entry whose date *is* the Python `None` (second conjunct) does
trigger the warning, so the miss is specifically the `NaN` form of a missing
date. -/
theorem c6_nan_dated_entry_excluded_without_warning :
    (Tracker.process_data ⟨1000, []⟩ eloIdentity [⟨none, [some 1, some 2]⟩]).map
        (fun t => t.player_df.map (fun r => (r.2.rating, r.2.rating_history))) =
      .ok [((1000 : ℚ), [(DateVal.pyNone, (1000 : ℚ)), (DateVal.nan, (1000 : ℚ))]),
        ((1000 : ℚ), [(DateVal.pyNone, (1000 : ℚ)), (DateVal.nan, (1000 : ℚ))])] ∧
    (Tracker.process_data ⟨1000, []⟩ eloIdentity [⟨none, [some 1, some 2]⟩]).map
        (fun t => t.get_history_df) = .ok [] ∧
    (Tracker.process_data ⟨1000, []⟩ eloIdentity [⟨none, [some 1, some 2]⟩]).map
        (fun t => t.history_warnings) = .ok [] ∧
    Tracker.history_warnings
      ⟨1000, [(7, ⟨7, 900, [(DateVal.pyNone, 1000), (DateVal.pyNone, 900)]⟩)]⟩ = [7] := by
  refine ⟨by decide, by decide, by decide, by decide⟩

/-! ### Claim C7 -/

/-- C7: `retrieve_existing_player` fails — with a NotFound error and only
with it — exactly when the id is unregistered, and returns a stored player
row's `player` entry otherwise; the registry itself is not modified (the
operation is a pure query of the tracker state in this embedding). -/
theorem c7_retrieve_existing_player_spec :
    ∀ (t : Tracker) (pid : PlayerId),
      (pid ∉ t.playerIds → t.retrieve_existing_player pid = .error (.notFound pid)) ∧
      (pid ∈ t.playerIds →
        ∃ p, t.retrieve_existing_player pid = .ok p ∧ (pid, p) ∈ t.player_df) ∧
      (∀ e, t.retrieve_existing_player pid = .error e →
        e = .notFound pid ∧ pid ∉ t.playerIds) := by
  intro t pid
  refine ⟨fun h => retrieve_error_of_not_mem h, fun h => retrieve_ok_of_mem h, ?_⟩
  intro e he
  refine ⟨retrieve_error_elim he, fun hmem => ?_⟩
  obtain ⟨p, hp, _⟩ := retrieve_ok_of_mem hmem
  rw [hp] at he
  cases he

/-- C7 witness: a registry holding only player 1; looking up 9 fails with
NotFound and looking up 1 returns the stored player. -/
theorem c7_witness :
    (Tracker.retrieve_existing_player ⟨1000, [(1, ⟨1, 50, [(DateVal.pyNone, 50)]⟩)]⟩ 9 =
      .error (.notFound 9)) ∧
    ∃ p, Tracker.retrieve_existing_player ⟨1000, [(1, ⟨1, 50, [(DateVal.pyNone, 50)]⟩)]⟩ 1 = .ok p ∧
      (1, p) ∈ (Tracker.mk 1000 [(1, ⟨1, 50, [(DateVal.pyNone, 50)]⟩)]).player_df :=
  ⟨(c7_retrieve_existing_player_spec _ 9).1 (by decide),
   (c7_retrieve_existing_player_spec _ 1).2.1 (by decide)⟩

/-! ### Claim C8 -/

/-- C8: `_create_new_player` on an existing id is a hard AlreadyExists error;
`_get_or_create_player` never produces an AlreadyExists error, returns the
stored player and the unchanged registry for an existing id, and for a new id
creates a player seeded with the registry's default initial rating (history
`[(None, initial)]`), adding exactly that player to the membership. -/
theorem c8_create_collision_and_get_or_create :
    ∀ (t : Tracker) (pid : PlayerId),
      (pid ∈ t.playerIds → t.create_new_player pid = .error (.alreadyExists pid)) ∧
      (∀ x, t.get_or_create_player pid ≠ .error (.alreadyExists x)) ∧
      (pid ∈ t.playerIds →
        ∃ p, t.get_or_create_player pid = .ok (p, t) ∧ (pid, p) ∈ t.player_df) ∧
      (pid ∉ t.playerIds → t.playerIds.Nodup →
        ∃ t', t.get_or_create_player pid =
            .ok (Player.init pid t.initial_player_rating none DateVal.pyNone, t') ∧
          (Player.init pid t.initial_player_rating none DateVal.pyNone).rating =
            t.initial_player_rating ∧
          (Player.init pid t.initial_player_rating none DateVal.pyNone).rating_history =
            [(DateVal.pyNone, t.initial_player_rating)] ∧
          t'.player_df.Perm
            (t.player_df ++ [(pid, Player.init pid t.initial_player_rating none DateVal.pyNone)])) := by
  intro t pid
  refine ⟨fun h => create_error_of_mem h, gooc_never_alreadyExists t pid,
    fun h => gooc_ok_of_mem h, ?_⟩
  intro h hn
  obtain ⟨t', h1, _, h3⟩ := gooc_ok_of_not_mem h hn
  exact ⟨t', h1, rfl, rfl, h3⟩

/-- C8 witness: on a registry holding only player 1, creating id 1 again
fails with AlreadyExists, while get_or_create of the fresh id 9 returns a
player seeded with the default rating 1000 and extends the membership by
exactly that player. -/
theorem c8_witness :
    (Tracker.create_new_player ⟨1000, [(1, ⟨1, 50, [(DateVal.pyNone, 50)]⟩)]⟩ 1 =
      .error (.alreadyExists 1)) ∧
    ∃ t', Tracker.get_or_create_player ⟨1000, [(1, ⟨1, 50, [(DateVal.pyNone, 50)]⟩)]⟩ 9 =
        .ok (Player.init 9 1000 none DateVal.pyNone, t') ∧
      t'.player_df.Perm
        ((Tracker.mk 1000 [(1, ⟨1, 50, [(DateVal.pyNone, 50)]⟩)]).player_df ++
          [(9, Player.init 9 1000 none DateVal.pyNone)]) := by
  refine ⟨(c8_create_collision_and_get_or_create _ 1).1 (by decide), ?_⟩
  obtain ⟨t', h1, _, _, h3⟩ :=
    (c8_create_collision_and_get_or_create ⟨1000, [(1, ⟨1, 50, [(DateVal.pyNone, 50)]⟩)]⟩ 9).2.2.2
      (by decide) (by decide)
  exact ⟨t', h1, h3⟩

/-! ### Claim C9 -/

/-- C9 (counterexample): the `Player` type does expose cross-type comparison
operators — comparing a player directly against a bare number is supported
(lines 106-119 of the source define it) and evaluates on the rating, contrary
to the claim that such comparisons are not supported at the interface. -/
theorem c9_counterexample_cross_type_comparisons_exist :
    Player.eqNum ⟨1, 1000, [(DateVal.pyNone, 1000)]⟩ 1000 = true ∧
    Player.ltNum ⟨1, 1000, [(DateVal.pyNone, 1000)]⟩ 1200 = true ∧
    Player.gtNum ⟨1, 1000, [(DateVal.pyNone, 1000)]⟩ 900 = true ∧
    Player.leNum ⟨1, 1000, [(DateVal.pyNone, 1000)]⟩ 1000 = true ∧
    Player.geNum ⟨1, 1000, [(DateVal.pyNone, 1000)]⟩ 1000 = true := by decide

/-- C9 (amended): `Player` exposes implicit cross-type comparison operators
`==`, `<`, `<=`, `>`, `>=`, each comparing the player's current rating with
the other operand, and player-to-player comparison (as used by the standings
sort) likewise reduces to comparing ratings. -/
theorem c9_comparisons_delegate_to_rating :
    ∀ (p : Player) (x : ℚ),
      (Player.eqNum p x = true ↔ p.rating = x) ∧
      (Player.ltNum p x = true ↔ p.rating < x) ∧
      (Player.leNum p x = true ↔ p.rating ≤ x) ∧
      (Player.gtNum p x = true ↔ x < p.rating) ∧
      (Player.geNum p x = true ↔ x ≤ p.rating) ∧
      (∀ q : Player, Player.ltPlayer p q = true ↔ p.rating < q.rating) := by
  intro p x
  refine ⟨?_, ?_, ?_, ?_, ?_, fun q => ?_⟩ <;>
    simp [Player.eqNum, Player.ltNum, Player.leNum, Player.gtNum, Player.geNum, Player.ltPlayer]

/-! ### Counterexamples for claims C2, C5, C10 -/

/-- C2 (counterexample): two matchups share a date; processing the two input
orders of the same table yields different final registry states, so
processing is not input-order independent when dates tie. -/
theorem c2_counterexample_same_date_order_dependent :
    Tracker.process_data ⟨0, []⟩ eloShift
        [⟨some 1, [some 2, some 1]⟩, ⟨some 1, [some 1, some 2]⟩] ≠
      Tracker.process_data ⟨0, []⟩ eloShift
        [⟨some 1, [some 1, some 2]⟩, ⟨some 1, [some 2, some 1]⟩] := by decide

/-- C5 (counterexample): a matchup listing identity 7 in two placement slots
is processed once, after which `count_games` is 2 although identity 7
appeared in exactly 1 matchup. -/
theorem c5_counterexample_duplicate_id_in_row :
    (Tracker.process_data ⟨1000, []⟩ eloIdentity [⟨some 1, [some 7, some 7]⟩]).map
        (fun t => t.player_df.map (fun r => (r.1, r.2.count_games))) = .ok [(7, 2)] ∧
    matchupCount 7 [⟨some 1, [some 7, some 7]⟩] = 1 ∧
    (2 : Nat) ≠ 1 := by
  refine ⟨by decide, by decide, by decide⟩

/-- C10 (counterexample): processing a matchup row whose date is missing
leaves each participant with `count_games = 1` but contributes no row to the
history export, so the export does not contain exactly `games_played` rows. -/
theorem c10_counterexample_undated_matchup_breaks_export :
    (Tracker.process_data ⟨1000, []⟩ eloIdentity [⟨none, [some 1, some 2]⟩]).map
        (fun t => (t.get_history_df.countP (fun row => row.1 == 1),
          t.player_df.map (fun r => (r.1, r.2.count_games)))) =
      .ok (0, [(1, 1), (2, 1)]) ∧ (0 : Nat) ≠ 1 := by
  refine ⟨by decide, by decide⟩

/-! ### Generic lemmas about stable sorting -/

theorem sorted_perm_eq_of_distinct {α : Type} {r : α → α → Prop} :
    ∀ {l₁ l₂ : List α}, l₁.Perm l₂ → l₁.Pairwise r → l₂.Pairwise r →
      l₁.Pairwise (fun a b => r a b → r b a → False) → l₁ = l₂
  | [], l₂, hp, _, _, _ => (hp.symm.eq_nil).symm
  | a :: t₁, [], hp, _, _, _ => by
    have := hp.eq_nil
    simp at this
  | a :: t₁, b :: t₂, hp, hs₁, hs₂, hd => by
    by_cases hab : a = b
    · subst hab
      have ht : t₁.Perm t₂ := hp.cons_inv
      rw [sorted_perm_eq_of_distinct ht hs₁.of_cons hs₂.of_cons hd.of_cons]
    · exfalso
      have hbt : b ∈ t₁ := by
        have hmem : b ∈ a :: t₁ := hp.mem_iff.2 (List.mem_cons_self b t₂)
        rcases List.mem_cons.1 hmem with h | h
        · exact absurd h.symm hab
        · exact h
      have hat : a ∈ t₂ := by
        have hmem : a ∈ b :: t₂ := hp.mem_iff.1 (List.mem_cons_self a t₁)
        rcases List.mem_cons.1 hmem with h | h
        · exact absurd h hab
        · exact h
      have hrab : r a b := (List.pairwise_cons.1 hs₁).1 b hbt
      have hrba : r b a := (List.pairwise_cons.1 hs₂).1 a hat
      exact (List.pairwise_cons.1 hd).1 b hbt hrab hrba

/-! ### Claim C2 -/

theorem rowLe_antisymm {a b : MatchupRow} (h1 : rowLe a b) (h2 : rowLe b a) :
    a.date = b.date := by
  rcases a with ⟨da, pa⟩
  rcases b with ⟨db, pb⟩
  cases da <;> cases db <;> simp_all [rowLe]
  exact Nat.le_antisymm h1 h2

/-- C2 (amended): `process_data` sorts the input rows by ascending date (and
drops rows with no non-empty placement); for tables whose rows carry
pairwise-distinct dates the by-date order is unique, so processing any
permutation of the table — in particular the table pre-sorted by date —
yields the same final registry state.  (With tied dates the source's default
quicksort leaves the relative order of same-date rows unspecified and the
result can depend on it — see the counterexample.) -/
theorem c2_process_data_sorting_and_order_invariance :
    ∀ (t : Tracker) (elo : List ℚ → List ℚ) (rows rows' : List MatchupRow),
      rows.Perm rows' →
      rows.Pairwise (fun a b => a.date ≠ b.date) →
      t.process_data elo rows = t.process_data elo rows' ∧
      t.process_data elo rows = t.process_data elo (List.insertionSort rowLe rows) := by
  intro t elo rows rows' hperm hdist
  constructor
  · unfold Tracker.process_data
    have hsorteq : List.insertionSort rowLe rows = List.insertionSort rowLe rows' := by
      apply sorted_perm_eq_of_distinct
      · exact ((List.perm_insertionSort rowLe rows).trans hperm).trans
          (List.perm_insertionSort rowLe rows').symm
      · exact List.sorted_insertionSort rowLe rows
      · exact List.sorted_insertionSort rowLe rows'
      · have h1 : (List.insertionSort rowLe rows).Pairwise (fun a b => a.date ≠ b.date) :=
          ((List.perm_insertionSort rowLe rows).pairwise_iff
            (fun hxy heq => hxy heq.symm)).2 hdist
        exact h1.imp (fun hne hr hr' => hne (rowLe_antisymm hr hr'))
    rw [hsorteq]
  · unfold Tracker.process_data
    rw [(List.sorted_insertionSort rowLe rows).insertionSort_eq]

/-- C2 witness: a two-row table with the distinct dates 2 and 1, supplied in
reverse chronological order, processes to the same final state as the
date-sorted table. -/
theorem c2_witness :
    ([⟨some 2, [some 2, some 1]⟩, ⟨some 1, [some 1, some 2]⟩] : List MatchupRow).Perm
        [⟨some 1, [some 1, some 2]⟩, ⟨some 2, [some 2, some 1]⟩] ∧
      Tracker.process_data ⟨0, []⟩ eloShift
          [⟨some 2, [some 2, some 1]⟩, ⟨some 1, [some 1, some 2]⟩] =
        Tracker.process_data ⟨0, []⟩ eloShift
          [⟨some 1, [some 1, some 2]⟩, ⟨some 2, [some 2, some 1]⟩] :=
  ⟨List.Perm.swap _ _ _,
    (c2_process_data_sorting_and_order_invariance ⟨0, []⟩ eloShift
      [⟨some 2, [some 2, some 1]⟩, ⟨some 1, [some 1, some 2]⟩]
      [⟨some 1, [some 1, some 2]⟩, ⟨some 2, [some 2, some 1]⟩]
      (List.Perm.swap _ _ _) (by decide)).1⟩

/-! ### Counting lemmas for processed matchups -/

theorem slotSum_cons (pid : PlayerId) (rw : MatchupRow) (l : List MatchupRow) :
    slotSum pid (rw :: l) = (rowIds rw).count pid + slotSum pid l := by
  simp [slotSum]

theorem slotSum_append (pid : PlayerId) (l₁ l₂ : List MatchupRow) :
    slotSum pid (l₁ ++ l₂) = slotSum pid l₁ + slotSum pid l₂ := by
  simp [slotSum]

theorem slotSum_singleton (pid : PlayerId) (rw : MatchupRow) :
    slotSum pid [rw] = (rowIds rw).count pid := by
  simp [slotSum]

theorem slotSum_perm (pid : PlayerId) {l₁ l₂ : List MatchupRow} (h : l₁.Perm l₂) :
    slotSum pid l₁ = slotSum pid l₂ :=
  (h.map _).sum_eq

theorem rowIds_nil_of_empty {rw : MatchupRow} (h : hasNonEmptyPlace rw = false) :
    rowIds rw = [] := by
  unfold hasNonEmptyPlace at h
  unfold rowIds
  rw [List.filterMap_eq_nil_iff]
  intro o ho
  rcases o with _ | pid
  · rfl
  · exfalso
    rw [List.any_eq_false] at h
    exact absurd (h _ ho) (by simp)

theorem slotSum_filter (pid : PlayerId) (l : List MatchupRow) :
    slotSum pid (l.filter hasNonEmptyPlace) = slotSum pid l := by
  induction l with
  | nil => rfl
  | cons rw rest ih =>
    by_cases h : hasNonEmptyPlace rw = true
    · rw [List.filter_cons_of_pos h, slotSum_cons, slotSum_cons, ih]
    · have hf : hasNonEmptyPlace rw = false := by simpa using h
      rw [List.filter_cons_of_neg h, slotSum_cons, rowIds_nil_of_empty hf, ih,
        List.count_nil, Nat.zero_add]

theorem slotSum_eq_matchupCount (pid : PlayerId) :
    ∀ rows : List MatchupRow, (∀ rw ∈ rows, (rowIds rw).Nodup) →
      slotSum pid rows = matchupCount pid rows
  | [], _ => rfl
  | rw :: rest, h => by
    have h1 := h rw (List.mem_cons_self _ _)
    have hcnt : (rowIds rw).count pid = if pid ∈ rowIds rw then 1 else 0 := by
      by_cases hm : pid ∈ rowIds rw
      · rw [if_pos hm, List.count_eq_one_of_mem h1 hm]
      · rw [if_neg hm, List.count_eq_zero_of_not_mem hm]
    rw [slotSum_cons, hcnt,
      slotSum_eq_matchupCount pid rest (fun x hx => h x (List.mem_cons_of_mem _ hx))]
    unfold matchupCount
    rw [List.countP_cons]
    by_cases hm : pid ∈ rowIds rw
    · simp [hm, Nat.add_comm]
    · simp [hm]

/-! ### The invariant carried through matchup processing -/

/-- State invariant maintained while a registry that started empty (with
default initial rating `r0`) processes the row list `processed`: ids are
unique, each stored player's `id` field matches its `player_id` key, its
history is the `None`-dated creation entry followed by one entry per
placement slot it occupied — each entry dated from the date cell of a
processed row the player occupied a slot in — and absent ids occupy no
slot. -/
def TrackerInv (r0 : ℚ) (processed : List MatchupRow) (t : Tracker) : Prop :=
  t.initial_player_rating = r0 ∧
  t.playerIds.Nodup ∧
  (∀ pr ∈ t.player_df, pr.2.id = pr.1 ∧
    ∃ tl, pr.2.rating_history = (DateVal.pyNone, r0) :: tl ∧
      tl.length = slotSum pr.1 processed ∧
      ∀ e ∈ tl, ∃ rw ∈ processed, e.1 = cellDate rw.date ∧ pr.1 ∈ rowIds rw) ∧
  (∀ pid, pid ∉ t.playerIds → slotSum pid processed = 0)

theorem getOrCreateAll_spec :
    ∀ (pids : List PlayerId) (t : Tracker), t.playerIds.Nodup →
      ∃ players t1, t.getOrCreateAll pids = .ok (players, t1) ∧
        players.length = pids.length ∧
        t1.initial_player_rating = t.initial_player_rating ∧
        t1.playerIds.Nodup ∧
        (∀ q, q ∈ t1.playerIds ↔ q ∈ t.playerIds ∨ q ∈ pids) ∧
        (∀ pr ∈ t1.player_df, pr ∈ t.player_df ∨
          (pr.1 ∉ t.playerIds ∧ pr.2 = Player.init pr.1 t.initial_player_rating none DateVal.pyNone))
  | [], t, hn => ⟨[], t, rfl, rfl, rfl, hn, by simp, fun pr hpr => Or.inl hpr⟩
  | pid :: rest, t, hn => by
    by_cases hm : pid ∈ t.playerIds
    · obtain ⟨p, hp, hmem⟩ := gooc_ok_of_mem hm
      obtain ⟨players, t1, h1, h2, h3, h4, h5, h6⟩ := getOrCreateAll_spec rest t hn
      refine ⟨p :: players, t1, ?_, by simp [h2], h3, h4, ?_, h6⟩
      · simp only [Tracker.getOrCreateAll, hp, h1]
      · intro q
        rw [h5 q, List.mem_cons]
        constructor
        · rintro (h | h)
          · exact Or.inl h
          · exact Or.inr (Or.inr h)
        · rintro (h | h | h)
          · exact Or.inl h
          · exact Or.inl (h ▸ hm)
          · exact Or.inr h
    · obtain ⟨t', hgo, hinit', hperm⟩ := gooc_ok_of_not_mem hm hn
      have hids' : ∀ q, q ∈ t'.playerIds ↔ q ∈ t.playerIds ∨ q = pid := by
        intro q
        show q ∈ t'.player_df.map (fun r => r.1) ↔ _
        rw [(hperm.map (fun r => r.1)).mem_iff, List.map_append]
        simp [Tracker.playerIds]
      have hnodup' : t'.playerIds.Nodup := by
        refine ((hperm.map (fun r => r.1)).nodup_iff).2 ?_
        rw [List.map_append]
        refine List.nodup_append.2 ⟨hn, List.nodup_singleton _, ?_⟩
        intro q hq hq'
        simp only [List.map_cons, List.map_nil, List.mem_singleton] at hq'
        exact hm (hq' ▸ hq)
      obtain ⟨players, t1, h1, h2, h3, h4, h5, h6⟩ := getOrCreateAll_spec rest t' hnodup'
      refine ⟨Player.init pid t.initial_player_rating none DateVal.pyNone :: players, t1, ?_,
        by simp [h2], by rw [h3, hinit'], h4, ?_, ?_⟩
      · simp only [Tracker.getOrCreateAll, hgo, h1]
      · intro q
        rw [h5 q, hids' q, List.mem_cons]
        constructor
        · rintro ((h | h) | h)
          · exact Or.inl h
          · exact Or.inr (Or.inl h)
          · exact Or.inr (Or.inr h)
        · rintro (h | h | h)
          · exact Or.inl (Or.inl h)
          · exact Or.inl (Or.inr h)
          · exact Or.inr h
      · intro pr hpr
        rcases h6 pr hpr with h | ⟨hnm, hval⟩
        · have hmem' : pr ∈ t.player_df ++
              [(pid, Player.init pid t.initial_player_rating none DateVal.pyNone)] :=
            hperm.mem_iff.1 h
          rcases List.mem_append.1 hmem' with h' | h'
          · exact Or.inl h'
          · have heq : pr = (pid, Player.init pid t.initial_player_rating none DateVal.pyNone) := by
              simpa using h'
            refine Or.inr ?_
            rw [heq]
            exact ⟨hm, rfl⟩
        · refine Or.inr ⟨?_, ?_⟩
          · intro hq
            exact hnm ((hids' pr.1).2 (Or.inl hq))
          · rw [hval, hinit']

/-! ### Writing back new ratings (the update loop of one matchup) -/

theorem updatePlayer_ids (t : Tracker) (pid : PlayerId) (nr : ℚ) (d : DateVal) :
    (t.updatePlayer pid nr d).playerIds = t.playerIds := by
  show List.map (fun r => r.1)
      (t.player_df.map (fun r =>
        if r.1 == pid then (r.1, r.2.update_rating nr d) else r)) =
    List.map (fun r => r.1) t.player_df
  rw [List.map_map]
  congr 1
  funext r
  by_cases h : r.1 == pid
  · simp [Function.comp, h]
  · simp [Function.comp, h]

theorem updateFold_initial (d : DateVal) :
    ∀ (pairs : List (PlayerId × ℚ)) (t : Tracker),
      (pairs.foldl (fun acc x => acc.updatePlayer x.1 x.2 d) t).initial_player_rating =
        t.initial_player_rating
  | [], _ => rfl
  | x :: rest, t => by
    rw [List.foldl_cons]
    exact updateFold_initial d rest _

theorem updateFold_ids (d : DateVal) :
    ∀ (pairs : List (PlayerId × ℚ)) (t : Tracker),
      (pairs.foldl (fun acc x => acc.updatePlayer x.1 x.2 d) t).playerIds = t.playerIds
  | [], _ => rfl
  | x :: rest, t => by
    rw [List.foldl_cons]
    rw [updateFold_ids d rest _, updatePlayer_ids]

theorem updateFold_df (d : DateVal) :
    ∀ (pairs : List (PlayerId × ℚ)) (t : Tracker),
      ∀ pr ∈ (pairs.foldl (fun acc x => acc.updatePlayer x.1 x.2 d) t).player_df,
        ∃ pr0 ∈ t.player_df, pr.1 = pr0.1 ∧ pr.2.id = pr0.2.id ∧
          ∃ ext, pr.2.rating_history = pr0.2.rating_history ++ ext ∧
            ext.length = (pairs.map (fun x => x.1)).count pr.1 ∧
            ∀ e ∈ ext, e.1 = d
  | [], t => fun pr hpr => ⟨pr, hpr, rfl, rfl, [], by simp, by simp, by simp⟩
  | x :: rest, t => by
    intro pr hpr
    rw [List.foldl_cons] at hpr
    obtain ⟨pr1, hpr1, he1, hid1, ext1, hh1, hl1, hd1⟩ := updateFold_df d rest _ pr hpr
    obtain ⟨pr0, hpr0, hcase⟩ : ∃ pr0 ∈ t.player_df,
        pr1 = if pr0.1 == x.1 then (pr0.1, pr0.2.update_rating x.2 d) else pr0 := by
      obtain ⟨pr0, hpr0, heq⟩ := List.mem_map.1 hpr1
      exact ⟨pr0, hpr0, heq.symm⟩
    by_cases hx : pr0.1 == x.1
    · have hpr1eq : pr1 = (pr0.1, pr0.2.update_rating x.2 d) := by rw [hcase, if_pos hx]
      have he1' : pr.1 = pr0.1 := by rw [he1, hpr1eq]
      have hid1' : pr.2.id = pr0.2.id := by
        rw [hid1, hpr1eq]
        rfl
      have hh1' : pr.2.rating_history =
          pr0.2.rating_history ++ ((d, x.2) :: ext1) := by
        rw [hh1, hpr1eq]
        show pr0.2.rating_history ++ [(d, x.2)] ++ ext1 = _
        rw [List.append_assoc]
        rfl
      refine ⟨pr0, hpr0, he1', hid1', (d, x.2) :: ext1, hh1', ?_, ?_⟩
      · rw [List.length_cons, List.map_cons, List.count_cons, hl1, he1']
        have hbeq : (x.1 == pr0.1) = true := by
          rw [Nat.beq_eq_true_eq] at hx ⊢
          exact hx.symm
        rw [hbeq]
        simp
      · intro e he
        rcases List.mem_cons.1 he with h | h
        · rw [h]
        · exact hd1 e h
    · have hpr1eq : pr1 = pr0 := by rw [hcase, if_neg hx]
      rw [hpr1eq] at he1 hid1 hh1
      refine ⟨pr0, hpr0, he1, hid1, ext1, hh1, ?_, hd1⟩
      have hbeq : (x.1 == pr.1) = false := by
        rw [Bool.eq_false_iff]
        intro hc
        apply hx
        rw [Nat.beq_eq_true_eq] at hc
        rw [Nat.beq_eq_true_eq, ← he1]
        exact hc.symm
      rw [List.map_cons, List.count_cons, hl1, hbeq]
      simp

/-! ### The invariant is preserved by processing a row and by the row loop -/

theorem processRow_inv {elo : List ℚ → List ℚ} (hlen : ∀ l, (elo l).length = l.length)
    {r0 : ℚ} {processed : List MatchupRow} {t : Tracker} (row : MatchupRow)
    (hI : TrackerInv r0 processed t) :
    ∃ t2, t.processRow elo row = .ok t2 ∧ TrackerInv r0 (processed ++ [row]) t2 := by
  obtain ⟨hinit, hnodup, hmemf, habs⟩ := hI
  obtain ⟨players, t1, hg, hplen, hinit1, hnodup1, hids1, hdf1⟩ :=
    getOrCreateAll_spec (rowIds row) t hnodup
  refine ⟨((rowIds row).zip (elo (players.map (fun p => p.rating)))).foldl
      (fun acc x => acc.updatePlayer x.1 x.2 (cellDate row.date)) t1, ?_, ?_⟩
  · unfold Tracker.processRow
    rw [hg]
  · have hfst : (((rowIds row).zip (elo (players.map (fun p => p.rating)))).map
        (fun x => x.1)) = rowIds row := by
      refine List.map_fst_zip _ _ ?_
      rw [hlen, List.length_map, hplen]
    refine ⟨?_, ?_, ?_, ?_⟩
    · rw [updateFold_initial, hinit1, hinit]
    · rw [updateFold_ids]
      exact hnodup1
    · intro pr hpr
      obtain ⟨pr1, hpr1, he1, hid1, ext, hh, hlext, hdext⟩ := updateFold_df _ _ _ pr hpr
      rw [hfst] at hlext
      rcases hdf1 pr1 hpr1 with hold | ⟨hnew, hval⟩
      · obtain ⟨hid0, tl, hh0, hlen0, hdates0⟩ := hmemf pr1 hold
        refine ⟨?_, tl ++ ext, ?_, ?_, ?_⟩
        · rw [hid1, hid0, ← he1]
        · rw [hh, hh0]
          rfl
        · rw [List.length_append, hlen0, slotSum_append, slotSum_singleton, hlext, he1]
        · intro e he
          rcases List.mem_append.1 he with h | h
          · obtain ⟨rw', hrw', hd, hin⟩ := hdates0 e h
            refine ⟨rw', List.mem_append_left _ hrw', hd, ?_⟩
            rw [he1]
            exact hin
          · have hmemrow : pr.1 ∈ rowIds row := by
              by_contra hc
              rw [List.count_eq_zero_of_not_mem hc] at hlext
              rw [List.length_eq_zero] at hlext
              rw [hlext] at h
              exact List.not_mem_nil _ h
            exact ⟨row, List.mem_append_right _ (List.mem_singleton_self _),
              hdext e h, hmemrow⟩
      · have hval' : pr1.2 = Player.init pr1.1 r0 none DateVal.pyNone := by rw [hval, hinit]
        refine ⟨?_, ext, ?_, ?_, ?_⟩
        · rw [hid1, hval', ← he1]
          rfl
        · rw [hh, hval']
          rfl
        · have hslot0 : slotSum pr.1 processed = 0 := by
            rw [he1]
            exact habs pr1.1 hnew
          rw [slotSum_append, slotSum_singleton, hslot0, hlext, Nat.zero_add]
        · intro e he
          have hmemrow : pr.1 ∈ rowIds row := by
            by_contra hc
            rw [List.count_eq_zero_of_not_mem hc] at hlext
            rw [List.length_eq_zero] at hlext
            rw [hlext] at he
            exact List.not_mem_nil _ he
          exact ⟨row, List.mem_append_right _ (List.mem_singleton_self _),
            hdext e he, hmemrow⟩
    · intro pid hpid
      rw [updateFold_ids] at hpid
      have hnot : ¬(pid ∈ t.playerIds ∨ pid ∈ rowIds row) := fun hc => hpid ((hids1 pid).2 hc)
      rw [slotSum_append, slotSum_singleton,
        habs pid (fun hc => hnot (Or.inl hc)),
        List.count_eq_zero_of_not_mem (fun hc => hnot (Or.inr hc))]

theorem processRows_inv {elo : List ℚ → List ℚ} (hlen : ∀ l, (elo l).length = l.length) :
    ∀ (rws : List MatchupRow) {r0 : ℚ} {processed : List MatchupRow} {t : Tracker},
      TrackerInv r0 processed t →
      ∃ t', Tracker.processRows elo t rws = .ok t' ∧ TrackerInv r0 (processed ++ rws) t'
  | [], r0, processed, t, hI => ⟨t, rfl, by simpa using hI⟩
  | rw :: rest, r0, processed, t, hI => by
    obtain ⟨t2, h2, hI2⟩ := processRow_inv hlen rw hI
    obtain ⟨t', h', hI'⟩ := processRows_inv hlen rest hI2
    refine ⟨t', ?_, ?_⟩
    · show (match t.processRow elo rw with
        | Except.error e => Except.error e
        | Except.ok tnext => Tracker.processRows elo tnext rest) = Except.ok t'
      rw [h2]
      exact h'
    · have : processed ++ [rw] ++ rest = processed ++ rw :: rest := by simp
      rw [← this]
      exact hI'

theorem trackerInv_empty (r0 : ℚ) : TrackerInv r0 [] ⟨r0, []⟩ :=
  ⟨rfl, List.nodup_nil, fun pr hpr => absurd hpr (List.not_mem_nil _), fun _ _ => rfl⟩

theorem process_data_inv {elo : List ℚ → List ℚ} (hlen : ∀ l, (elo l).length = l.length)
    (r0 : ℚ) (rows : List MatchupRow) :
    ∃ t', Tracker.process_data ⟨r0, []⟩ elo rows = .ok t' ∧
      TrackerInv r0 ((List.insertionSort rowLe rows).filter hasNonEmptyPlace) t' := by
  obtain ⟨t', h, hI⟩ := processRows_inv hlen
    ((List.insertionSort rowLe rows).filter hasNonEmptyPlace) (trackerInv_empty r0)
  refine ⟨t', h, ?_⟩
  simpa using hI

/-! ### Claim C5 -/

/-- C5 (amended): `count_games` is `len(rating_history) - 1`, and after a
registry that starts empty processes a matchup table, each competitor's
`count_games` equals the number of non-empty placement slots across the
table's rows holding its identity; when no row lists the same identity in
more than one placement slot, this is the number of matchups in which the
identity appeared. -/
theorem c5_count_games_counts_placement_slots
    (elo : List ℚ → List ℚ) (hlen : ∀ l, (elo l).length = l.length)
    (r0 : ℚ) (rows : List MatchupRow) (t' : Tracker)
    (hok : Tracker.process_data ⟨r0, []⟩ elo rows = .ok t') :
    (∀ p : Player, p.count_games = p.rating_history.length - 1) ∧
    ∀ pr ∈ t'.player_df,
      pr.2.count_games = slotSum pr.1 rows ∧
      ((∀ rw ∈ rows, (rowIds rw).Nodup) → pr.2.count_games = matchupCount pr.1 rows) := by
  obtain ⟨t'', hok', hI⟩ := process_data_inv hlen r0 rows
  rw [hok] at hok'
  injection hok' with heq
  subst heq
  refine ⟨fun p => rfl, ?_⟩
  intro pr hpr
  obtain ⟨hinit, hnodup, hmemf, habs⟩ := hI
  obtain ⟨hid, tl, hh, hlen_tl, hdates⟩ := hmemf pr hpr
  have hslot : slotSum pr.1 ((List.insertionSort rowLe rows).filter hasNonEmptyPlace) =
      slotSum pr.1 rows := by
    rw [slotSum_filter, slotSum_perm pr.1 (List.perm_insertionSort rowLe rows)]
  have hcount : pr.2.count_games = slotSum pr.1 rows := by
    show pr.2.rating_history.length - 1 = _
    rw [hh, List.length_cons, Nat.succ_sub_one, hlen_tl, hslot]
  exact ⟨hcount, fun hnodups => hcount.trans (slotSum_eq_matchupCount pr.1 rows hnodups)⟩

/-- C5 witness: processing the two dated matchups `[5, 6]` and `[5]` from an
empty registry gives competitor 5 a games count of 2, which equals both its
slot count and its matchup count over the table. -/
theorem c5_witness :
    Player.count_games ⟨5, 1000, [(DateVal.pyNone, 1000), (DateVal.val 1, 1000), (DateVal.val 2, 1000)]⟩ =
      slotSum 5 [⟨some 1, [some 5, some 6]⟩, ⟨some 2, [some 5, none]⟩] ∧
    Player.count_games ⟨5, 1000, [(DateVal.pyNone, 1000), (DateVal.val 1, 1000), (DateVal.val 2, 1000)]⟩ =
      matchupCount 5 [⟨some 1, [some 5, some 6]⟩, ⟨some 2, [some 5, none]⟩] := by
  have h := (c5_count_games_counts_placement_slots eloIdentity (fun l => rfl) 1000
      [⟨some 1, [some 5, some 6]⟩, ⟨some 2, [some 5, none]⟩]
      ⟨1000, [(5, ⟨5, 1000, [(DateVal.pyNone, 1000), (DateVal.val 1, 1000), (DateVal.val 2, 1000)]⟩),
        (6, ⟨6, 1000, [(DateVal.pyNone, 1000), (DateVal.val 1, 1000)]⟩)]⟩ (by decide)).2
      (5, ⟨5, 1000, [(DateVal.pyNone, 1000), (DateVal.val 1, 1000), (DateVal.val 2, 1000)]⟩) (by decide)
  exact ⟨h.1, h.2 (by decide)⟩

/-! ### Claim C10 -/

theorem countP_flatMap {α β : Type} (p : β → Bool) :
    ∀ (l : List α) (f : α → List β),
      (l.flatMap f).countP p = (l.map (fun x => (f x).countP p)).sum
  | [], _ => rfl
  | a :: l, f => by
    rw [List.flatMap_cons, List.countP_append, List.map_cons, List.sum_cons,
      countP_flatMap p l f]

theorem sum_map_eq_single {β : Type} :
    ∀ (l : List β) (g : β → Nat) (x : β), x ∈ l → l.Nodup →
      (∀ y ∈ l, y ≠ x → g y = 0) → (l.map g).sum = g x
  | [], _, _, hx, _, _ => absurd hx (List.not_mem_nil _)
  | a :: l, g, x, hx, hnd, hz => by
    rcases List.mem_cons.1 hx with h | h
    · subst h
      rw [List.map_cons, List.sum_cons]
      have hzero : (l.map g).sum = 0 := by
        apply List.sum_eq_zero
        intro i hi
        obtain ⟨y, hy, rfl⟩ := List.mem_map.1 hi
        refine hz y (List.mem_cons_of_mem _ hy) ?_
        intro heq
        exact (List.nodup_cons.1 hnd).1 (heq ▸ hy)
      rw [hzero, Nat.add_zero]
    · rw [List.map_cons, List.sum_cons]
      have ha : g a = 0 := by
        refine hz a (List.mem_cons_self _ _) ?_
        intro heq
        exact (List.nodup_cons.1 hnd).1 (heq ▸ h)
      rw [ha, sum_map_eq_single l g x h (List.nodup_cons.1 hnd).2
        (fun y hy hne => hz y (List.mem_cons_of_mem _ hy) hne), Nat.zero_add]

/-- C10 (amended): every competitor created by the registry itself is seeded
with a creation entry whose date is missing (the Python `None`); and after an
initially empty registry processes a table, for each competitor all of whose
occupied rows carry a date, the history export contains exactly
`count_games` rows for that competitor (the creation entry never appears),
and an as-of-date lookup for any date strictly before all of *that
competitor's* matchup dates returns the supplied default rating. -/
theorem c10_registry_creation_entry_and_export
    (elo : List ℚ → List ℚ) (hlen : ∀ l, (elo l).length = l.length)
    (r0 : ℚ) (rows : List MatchupRow) (t' : Tracker)
    (hok : Tracker.process_data ⟨r0, []⟩ elo rows = .ok t') :
    (∀ (t : Tracker) (pid : PlayerId) (p : Player) (t2 : Tracker),
      t.create_new_player pid = .ok (p, t2) →
      p.rating_history = [(DateVal.pyNone, t.initial_player_rating)]) ∧
    ∀ pr ∈ t'.player_df,
      ((∀ rw ∈ rows, pr.1 ∈ rowIds rw → rw.date.isSome = true) →
        t'.get_history_df.countP (fun row => row.1 == pr.1) = pr.2.count_games) ∧
      (∀ (d : Date) (q : ℚ),
        (∀ rw ∈ rows, pr.1 ∈ rowIds rw → ∀ dd, rw.date = some dd → d < dd) →
        pr.2.get_rating_as_of_date d q = q) := by
  constructor
  · intro t pid p t2 hc
    by_cases hm : pid ∈ t.playerIds
    · rw [create_error_of_mem hm] at hc
      cases hc
    · rcases hv : validate_player_df
          (t.player_df ++ [(pid, Player.init pid t.initial_player_rating none DateVal.pyNone)])
        with e | df
      · simp only [Tracker.create_new_player, if_neg hm, hv] at hc
        cases hc
      · simp only [Tracker.create_new_player, if_neg hm, hv, Except.ok.injEq,
          Prod.mk.injEq] at hc
        rw [← hc.1]
        rfl
  · intro pr hpr
    obtain ⟨t'', hok', hI⟩ := process_data_inv hlen r0 rows
    rw [hok] at hok'
    injection hok' with heq
    subst heq
    obtain ⟨hinit, hnodup, hmemf, habs⟩ := hI
    obtain ⟨hid, tl, hh, hlen_tl, hdates⟩ := hmemf pr hpr
    have hdmem : ∀ rw ∈ (List.insertionSort rowLe rows).filter hasNonEmptyPlace,
        rw ∈ rows := by
      intro rw hrw
      exact (List.perm_insertionSort rowLe rows).mem_iff.1 (List.mem_filter.1 hrw).1
    constructor
    · intro hdated
      have htl_some : ∀ e ∈ tl, e.1.isPresent = true := by
        intro e he
        obtain ⟨rw', hrw', hd, hin⟩ := hdates e he
        have hsome := hdated rw' (hdmem rw' hrw') hin
        rcases hdd : rw'.date with _ | dd
        · simp [hdd] at hsome
        · rw [hd, hdd]
          rfl
      show (t'.player_df.flatMap _).countP _ = _
      rw [countP_flatMap]
      have hrow : ∀ y ∈ t'.player_df, y ≠ pr →
          ((y.2.rating_history.filter (fun e => e.1.isPresent)).map
            (fun e => (y.2.id, e.1, e.2))).countP (fun row => row.1 == pr.1) = 0 := by
        intro y hy hne
        rw [List.countP_eq_zero]
        intro a ha
        obtain ⟨e, he, rfl⟩ := List.mem_map.1 ha
        have hyid : y.2.id = y.1 := (hmemf y hy).1
        have hne1 : y.1 ≠ pr.1 := by
          intro hc
          exact hne (List.inj_on_of_nodup_map hnodup hy hpr hc)
        simp only [hyid]
        intro hc
        rw [Nat.beq_eq_true_eq] at hc
        exact hne1 hc
      rw [sum_map_eq_single t'.player_df _ pr hpr (List.Nodup.of_map _ hnodup) hrow]
      have hfilter : pr.2.rating_history.filter (fun e => e.1.isPresent) = tl := by
        rw [hh, List.filter_cons]
        simp only [DateVal.isPresent, Bool.false_eq_true, if_false]
        exact List.filter_eq_self.2 htl_some
      rw [hfilter]
      have hall : ∀ a ∈ tl.map (fun e => (pr.2.id, e.1, e.2)),
          (fun row => row.1 == pr.1) a = true := by
        intro a ha
        obtain ⟨e, he, rfl⟩ := List.mem_map.1 ha
        simp only [hid]
        rw [Nat.beq_eq_true_eq]
      rw [List.countP_eq_length.2 hall, List.length_map]
      show tl.length = pr.2.rating_history.length - 1
      rw [hh, List.length_cons, Nat.succ_sub_one]
    · intro d q hlt
      apply rating_as_of_default_of_all_late
      intro e he dd hed
      rw [hh] at he
      rcases List.mem_cons.1 he with h | h
      · rw [h] at hed
        simp at hed
      · obtain ⟨rw', hrw', hdate, hin⟩ := hdates e h
        have hcell : rw'.date = some dd := by
          rcases hdd : rw'.date with _ | x
          · rw [hdate, hdd] at hed
            simp [cellDate] at hed
          · rw [hdate, hdd] at hed
            simp only [cellDate, DateVal.val.injEq] at hed
            rw [hed]
        exact hlt rw' (hdmem rw' hrw') hin dd hcell

/-- C10 witness: after processing the dated table with rows on dates 1 and 2
from an empty registry, competitor 5's history export row count equals its
games count, and its rating as of date 0 (before all of its matchups) is the
supplied default 777. -/
theorem c10_witness :
    (Tracker.get_history_df ⟨1000,
        [(5, ⟨5, 1000, [(DateVal.pyNone, 1000), (DateVal.val 1, 1000), (DateVal.val 2, 1000)]⟩),
         (6, ⟨6, 1000, [(DateVal.pyNone, 1000), (DateVal.val 1, 1000)]⟩)]⟩).countP
      (fun row => row.1 == 5) =
      Player.count_games
        ⟨5, 1000, [(DateVal.pyNone, 1000), (DateVal.val 1, 1000), (DateVal.val 2, 1000)]⟩ ∧
    Player.get_rating_as_of_date
      ⟨5, 1000, [(DateVal.pyNone, 1000), (DateVal.val 1, 1000), (DateVal.val 2, 1000)]⟩
      0 777 = 777 := by
  have h := (c10_registry_creation_entry_and_export eloIdentity (fun l => rfl) 1000
      [⟨some 1, [some 5, some 6]⟩, ⟨some 2, [some 5, none]⟩]
      ⟨1000, [(5, ⟨5, 1000, [(DateVal.pyNone, 1000), (DateVal.val 1, 1000), (DateVal.val 2, 1000)]⟩),
        (6, ⟨6, 1000, [(DateVal.pyNone, 1000), (DateVal.val 1, 1000)]⟩)]⟩
      (by decide)).2
      (5, ⟨5, 1000, [(DateVal.pyNone, 1000), (DateVal.val 1, 1000), (DateVal.val 2, 1000)]⟩)
      (by decide)
  exact ⟨h.1 (by decide), h.2 0 777 (by decide)⟩
